import Mathlib

/-!
Shallow embedding of the ink! contract in src/lib.rs (module `mintable`).

Modelling conventions:
* `AccountId` is an opaque, equality-comparable identifier; we use `Nat`.
* `Balance` is the ink! default `u128`.  We embed it as `Nat` together with
  explicit wrapping arithmetic modulo `2 ^ 128` (`wadd`, `wsub`), matching the
  semantics of Rust `+` / `-` in the release profile used to build contract
  Wasm, where overflow checks are off and arithmetic wraps.
* `storage::HashMap` is embedded as an association list with first-match
  lookup (`hmGet`, default 0 as in `balance_of_or_zero` / `allowance_of_or_zero`)
  and overwrite-first-occurrence insertion (`hmInsert`).
* A Rust `assert!` / `assert_eq!` panic traps the contract call; the host
  then discards every storage mutation of that call.  We embed each message
  as a function into `Except Error ...`; the dispatcher-level function `step`
  keeps the pre-state on `.error`, which is exactly the host's rollback.
* Events are not modelled: no claim under consideration mentions them.
-/

abbrev AccountId := Nat

/-- The number of values of the `u128` type of ink! balances, `2 ^ 128`. -/
def BalanceLimit : Nat := 340282366920938463463374607431768211456

theorem balanceLimit_eq_two_pow : BalanceLimit = 2 ^ 128 := by
  norm_num [BalanceLimit]

/-- Wrapping `u128` addition (Rust `+` with overflow checks off). -/
def wadd (a b : Nat) : Nat := (a + b) % BalanceLimit

/-- Wrapping `u128` subtraction (Rust `-` with overflow checks off);
faithful for operands below `BalanceLimit`. -/
def wsub (a b : Nat) : Nat := (a + BalanceLimit - b) % BalanceLimit

/-- `storage::HashMap::insert`: overwrite the first occurrence of the key,
append the pair when the key is absent. -/
def hmInsert {α : Type} [DecidableEq α] : List (α × Nat) → α → Nat → List (α × Nat)
  | [], k, v => [(k, v)]
  | (k', v') :: t, k, v => if k' = k then (k, v) :: t else (k', v') :: hmInsert t k v

/-- `storage::HashMap::get(...).unwrap_or(&0)`: first occurrence, default 0. -/
def hmGet {α : Type} [DecidableEq α] : List (α × Nat) → α → Nat
  | [], _ => 0
  | (k', v') :: t, k => if k' = k then v' else hmGet t k

/-- Sum of all stored values of the map. -/
def hmSum {α : Type} : List (α × Nat) → Nat
  | [] => 0
  | p :: t => p.2 + hmSum t

/-- The `#[ink(storage)] struct Mintable` of src/lib.rs.  Balances and
allowance values are `u128` amounts, embedded as `Nat`. -/
structure Mintable where
  name : String
  minter : AccountId
  total_supply : Nat
  balances : List (AccountId × Nat)
  allowances : List ((AccountId × AccountId) × Nat)
  deriving DecidableEq

/-- The panics of the contract, named by the spec's error taxonomy:
`Unauthorized` is the `assert_eq!(caller, *self.minter)` in `_mint`,
`InsufficientBalance` the balance asserts in `_burn` / `_transfer`,
`InsufficientAllowance` the `assert!(allowance >= value)` in `transfer_from`. -/
inductive Error where
  | Unauthorized
  | InsufficientBalance
  | InsufficientAllowance
  deriving DecidableEq

/-- `fn balance_of_or_zero`. -/
def balance_of_or_zero (s : Mintable) (owner : AccountId) : Nat :=
  hmGet s.balances owner

/-- `fn allowance_of_or_zero`. -/
def allowance_of_or_zero (s : Mintable) (owner spender : AccountId) : Nat :=
  hmGet s.allowances (owner, spender)

/-- The `#[ink(constructor)] fn new`: `caller` is `self.env().caller()`. -/
def Mintable.new (caller : AccountId) (name : String) : Mintable :=
  { name := name
    minter := caller
    total_supply := 0
    balances := hmInsert [] caller 0
    allowances := [] }

/-- `fn _mint`: authorization check, then the two wrapping additions. -/
def mint_impl (s : Mintable) (caller dst : AccountId) (value : Nat) : Except Error Mintable :=
  if caller = s.minter then
    let to_balance := balance_of_or_zero s dst
    let s1 := { s with balances := hmInsert s.balances dst (wadd to_balance value) }
    Except.ok { s1 with total_supply := wadd s1.total_supply value }
  else
    Except.error Error.Unauthorized

/-- `fn _burn`: balance check, decrement balance, then decrement supply. -/
def burn_impl (s : Mintable) (src : AccountId) (value : Nat) : Except Error Mintable :=
  let from_balance := balance_of_or_zero s src
  if value ≤ from_balance then
    let s1 := { s with balances := hmInsert s.balances src (from_balance - value) }
    Except.ok { s1 with total_supply := wsub s1.total_supply value }
  else
    Except.error Error.InsufficientBalance

/-- `fn _transfer`: balance check, decrement `src`, then the recipient's
balance is re-read from the already-updated map and incremented (wrapping). -/
def transfer_impl (s : Mintable) (src dst : AccountId) (value : Nat) : Except Error Mintable :=
  let from_balance := balance_of_or_zero s src
  if value ≤ from_balance then
    let s1 := { s with balances := hmInsert s.balances src (from_balance - value) }
    let to_balance := balance_of_or_zero s1 dst
    Except.ok { s1 with balances := hmInsert s1.balances dst (wadd to_balance value) }
  else
    Except.error Error.InsufficientBalance

/-- `fn _approve`: unconditional overwrite; never fails. -/
def approve_impl (s : Mintable) (owner spender : AccountId) (value : Nat) : Mintable :=
  { s with allowances := hmInsert s.allowances (owner, spender) value }

/-- `#[ink(message)] fn mint`: delegates to `_mint`, then returns `true`. -/
def mint (s : Mintable) (caller dst : AccountId) (value : Nat) :
    Except Error (Mintable × Bool) :=
  (mint_impl s caller dst value).map (fun s' => (s', true))

/-- `#[ink(message)] fn burn`: `from` is the caller. -/
def burn (s : Mintable) (caller : AccountId) (value : Nat) :
    Except Error (Mintable × Bool) :=
  (burn_impl s caller value).map (fun s' => (s', true))

/-- `#[ink(message)] fn transfer`: `from` is the caller. -/
def transfer (s : Mintable) (caller dst : AccountId) (value : Nat) :
    Except Error (Mintable × Bool) :=
  (transfer_impl s caller dst value).map (fun s' => (s', true))

/-- `#[ink(message)] fn approve`: `owner` is the caller; always `true`. -/
def approve (s : Mintable) (caller spender : AccountId) (value : Nat) :
    Except Error (Mintable × Bool) :=
  Except.ok (approve_impl s caller spender value, true)

/-- `#[ink(message)] fn transfer_from`: first the balance-moving `_transfer`,
then the allowance check (a failing check panics, so the host discards the
transfer as well), then `_approve(from, spender, allowance - value)`. -/
def transfer_from (s : Mintable) (caller src dst : AccountId) (value : Nat) :
    Except Error (Mintable × Bool) :=
  match transfer_impl s src dst value with
  | Except.error e => Except.error e
  | Except.ok s1 =>
    let allowance := allowance_of_or_zero s1 src caller
    if value ≤ allowance then
      Except.ok (approve_impl s1 src caller (allowance - value), true)
    else
      Except.error Error.InsufficientAllowance

/-- One invocation of a write message, with the host-supplied caller. -/
inductive Call where
  | mint (caller dst : AccountId) (value : Nat)
  | burn (caller : AccountId) (value : Nat)
  | transfer (caller dst : AccountId) (value : Nat)
  | approve (caller spender : AccountId) (value : Nat)
  | transferFrom (caller src dst : AccountId) (value : Nat)
  deriving DecidableEq

/-- Dispatch of one call to the corresponding message. -/
def exec (s : Mintable) : Call → Except Error (Mintable × Bool)
  | Call.mint caller dst v => mint s caller dst v
  | Call.burn caller v => burn s caller v
  | Call.transfer caller dst v => transfer s caller dst v
  | Call.approve caller spender v => approve s caller spender v
  | Call.transferFrom caller src dst v => transfer_from s caller src dst v

/-- Host-level semantics of one call: a trapped (panicking) call leaves the
contract storage exactly as it was. -/
def step (s : Mintable) (c : Call) : Mintable :=
  match exec s c with
  | Except.ok (s', _) => s'
  | Except.error _ => s

/-- Run a sequence of calls under the host semantics. -/
def run (s : Mintable) : List Call → Mintable
  | [] => s
  | c :: cs => run (step s c) cs

/-- Run a sequence of calls, requiring every call to succeed. -/
def runAllOk (s : Mintable) : List Call → Option Mintable
  | [] => some s
  | c :: cs =>
    match exec s c with
    | Except.ok (s', _) => runAllOk s' cs
    | Except.error _ => none

/-- A call avoids the unchecked-overflow hazard: for `mint`, the new total
supply stays below `BalanceLimit`; every other message is always safe. -/
def noMintOverflow (s : Mintable) : Call → Bool
  | Call.mint _ _ v => decide (s.total_supply + v < BalanceLimit)
  | _ => true

/-- Every call of the sequence, executed in order, avoids mint overflow. -/
def safeRun (s : Mintable) : List Call → Bool
  | [] => true
  | c :: cs => noMintOverflow s c && safeRun (step s c) cs

/-- Conservation invariant: the stored total supply equals the sum of all
entries of the balances map. -/
def Conserves (s : Mintable) : Prop :=
  s.total_supply = hmSum s.balances

/-! ### Association-list map lemmas -/

theorem hmGet_insert_self {α : Type} [DecidableEq α] (l : List (α × Nat)) (k : α)
    (v : Nat) : hmGet (hmInsert l k v) k = v := by
  induction l with
  | nil => simp [hmInsert, hmGet]
  | cons p t ih =>
    obtain ⟨k', v'⟩ := p
    by_cases h : k' = k
    · simp [hmInsert, hmGet, h]
    · simp [hmInsert, hmGet, h, ih]

theorem hmGet_insert_ne {α : Type} [DecidableEq α] (l : List (α × Nat)) (k a : α)
    (v : Nat) (hne : a ≠ k) : hmGet (hmInsert l k v) a = hmGet l a := by
  induction l with
  | nil => simp [hmInsert, hmGet, Ne.symm hne]
  | cons p t ih =>
    obtain ⟨k', v'⟩ := p
    by_cases h : k' = k
    · simp [hmInsert, hmGet, h, Ne.symm hne]
    · by_cases h2 : k' = a <;> simp [hmInsert, hmGet, h, h2, hne, ih]

theorem hmSum_insert {α : Type} [DecidableEq α] (l : List (α × Nat)) (k : α)
    (v : Nat) : hmSum (hmInsert l k v) + hmGet l k = hmSum l + v := by
  induction l with
  | nil => simp [hmInsert, hmGet, hmSum]
  | cons p t ih =>
    obtain ⟨k', v'⟩ := p
    by_cases h : k' = k
    · simp only [hmInsert, if_pos h, hmSum, hmGet]
      omega
    · simp only [hmInsert, if_neg h, hmSum, hmGet]
      omega

theorem hmGet_le_hmSum {α : Type} [DecidableEq α] (l : List (α × Nat)) (k : α) :
    hmGet l k ≤ hmSum l := by
  induction l with
  | nil => simp [hmGet, hmSum]
  | cons p t ih =>
    obtain ⟨k', v'⟩ := p
    by_cases h : k' = k
    · simp only [hmGet, if_pos h, hmSum]
      omega
    · simp only [hmGet, if_neg h, hmSum]
      omega

/-! ### Wrapping-arithmetic lemmas -/

theorem balanceLimit_pos : 0 < BalanceLimit := by
  norm_num [BalanceLimit]

theorem wadd_eq_of_lt {a b : Nat} (h : a + b < BalanceLimit) : wadd a b = a + b := by
  simp [wadd, Nat.mod_eq_of_lt h]

theorem wsub_eq_of_le {a b : Nat} (hba : b ≤ a) (ha : a < BalanceLimit) :
    wsub a b = a - b := by
  have h1 : a + BalanceLimit - b = BalanceLimit + (a - b) := by omega
  have h2 : a - b < BalanceLimit := by omega
  simp [wsub, h1, Nat.add_mod_left, Nat.mod_eq_of_lt h2]

theorem wadd_lt (a b : Nat) : wadd a b < BalanceLimit :=
  Nat.mod_lt _ balanceLimit_pos

theorem wsub_lt (a b : Nat) : wsub a b < BalanceLimit :=
  Nat.mod_lt _ balanceLimit_pos

/-! ### Per-operation conservation lemmas -/

theorem mint_impl_conserves (s : Mintable) (caller dst : AccountId) (v : Nat) (s' : Mintable)
    (hlt : s.total_supply < BalanceLimit) (hc : Conserves s)
    (hsafe : s.total_supply + v < BalanceLimit)
    (h : mint_impl s caller dst v = Except.ok s') :
    Conserves s' ∧ s'.total_supply < BalanceLimit := by
  simp only [mint_impl] at h
  by_cases hca : caller = s.minter
  · rw [if_pos hca] at h
    simp only [Except.ok.injEq] at h
    subst h
    have hble : hmGet s.balances dst ≤ hmSum s.balances := hmGet_le_hmSum _ _
    have hbs : hmGet s.balances dst + v < BalanceLimit := by
      unfold Conserves at hc
      omega
    have hins := hmSum_insert s.balances dst (wadd (balance_of_or_zero s dst) v)
    unfold Conserves at hc ⊢
    simp only [balance_of_or_zero] at hins ⊢
    rw [wadd_eq_of_lt hbs] at hins ⊢
    rw [wadd_eq_of_lt hsafe]
    omega
  · rw [if_neg hca] at h
    exact Except.noConfusion h

theorem burn_impl_conserves (s : Mintable) (src : AccountId) (v : Nat) (s' : Mintable)
    (hlt : s.total_supply < BalanceLimit) (hc : Conserves s)
    (h : burn_impl s src v = Except.ok s') :
    Conserves s' ∧ s'.total_supply < BalanceLimit := by
  simp only [burn_impl] at h
  by_cases hb : v ≤ balance_of_or_zero s src
  · rw [if_pos hb] at h
    simp only [Except.ok.injEq] at h
    subst h
    have hble : hmGet s.balances src ≤ hmSum s.balances := hmGet_le_hmSum _ _
    have hins := hmSum_insert s.balances src (balance_of_or_zero s src - v)
    unfold Conserves at hc ⊢
    simp only [balance_of_or_zero] at hins hb ⊢
    have hvs : v ≤ s.total_supply := by omega
    rw [wsub_eq_of_le hvs hlt]
    omega
  · rw [if_neg hb] at h
    exact Except.noConfusion h

theorem transfer_impl_conserves (s : Mintable) (src dst : AccountId) (v : Nat) (s' : Mintable)
    (hlt : s.total_supply < BalanceLimit) (hc : Conserves s)
    (h : transfer_impl s src dst v = Except.ok s') :
    Conserves s' ∧ s'.total_supply < BalanceLimit := by
  simp only [transfer_impl] at h
  by_cases hb : v ≤ balance_of_or_zero s src
  · rw [if_pos hb] at h
    simp only [Except.ok.injEq] at h
    subst h
    have hble : hmGet s.balances src ≤ hmSum s.balances := hmGet_le_hmSum _ _
    have hins1 := hmSum_insert s.balances src (balance_of_or_zero s src - v)
    have hble2 : hmGet (hmInsert s.balances src (balance_of_or_zero s src - v)) dst ≤
        hmSum (hmInsert s.balances src (balance_of_or_zero s src - v)) :=
      hmGet_le_hmSum _ _
    have hins2 := hmSum_insert (hmInsert s.balances src (balance_of_or_zero s src - v)) dst
      (wadd (hmGet (hmInsert s.balances src (balance_of_or_zero s src - v)) dst) v)
    unfold Conserves at hc ⊢
    simp only [balance_of_or_zero] at hins1 hins2 hble2 hb ⊢
    have hlt2 : hmGet (hmInsert s.balances src (hmGet s.balances src - v)) dst + v <
        BalanceLimit := by omega
    rw [wadd_eq_of_lt hlt2] at hins2 ⊢
    omega
  · rw [if_neg hb] at h
    exact Except.noConfusion h

theorem step_conserves (s : Mintable) (c : Call)
    (hlt : s.total_supply < BalanceLimit) (hc : Conserves s)
    (hsafe : noMintOverflow s c = true) :
    Conserves (step s c) ∧ (step s c).total_supply < BalanceLimit := by
  cases c with
  | mint caller dst v =>
    simp only [noMintOverflow, decide_eq_true_eq] at hsafe
    cases hm : mint_impl s caller dst v with
    | ok s1 =>
      have := mint_impl_conserves s caller dst v s1 hlt hc hsafe hm
      simpa [step, exec, mint, hm, Except.map] using this
    | error e =>
      have hs : step s (Call.mint caller dst v) = s := by
        simp [step, exec, mint, hm, Except.map]
      rw [hs]
      exact ⟨hc, hlt⟩
  | burn caller v =>
    cases hm : burn_impl s caller v with
    | ok s1 =>
      have := burn_impl_conserves s caller v s1 hlt hc hm
      simpa [step, exec, burn, hm, Except.map] using this
    | error e =>
      have hs : step s (Call.burn caller v) = s := by
        simp [step, exec, burn, hm, Except.map]
      rw [hs]
      exact ⟨hc, hlt⟩
  | transfer caller dst v =>
    cases hm : transfer_impl s caller dst v with
    | ok s1 =>
      have := transfer_impl_conserves s caller dst v s1 hlt hc hm
      simpa [step, exec, transfer, hm, Except.map] using this
    | error e =>
      have hs : step s (Call.transfer caller dst v) = s := by
        simp [step, exec, transfer, hm, Except.map]
      rw [hs]
      exact ⟨hc, hlt⟩
  | approve caller spender v =>
    have hs : step s (Call.approve caller spender v) = approve_impl s caller spender v := by
      simp [step, exec, approve]
    rw [hs]
    exact ⟨hc, hlt⟩
  | transferFrom caller src dst v =>
    cases hm : transfer_impl s src dst v with
    | ok s1 =>
      have h1 := transfer_impl_conserves s src dst v s1 hlt hc hm
      by_cases ha : v ≤ allowance_of_or_zero s1 src caller
      · have : step s (Call.transferFrom caller src dst v) =
            approve_impl s1 src caller (allowance_of_or_zero s1 src caller - v) := by
          simp [step, exec, transfer_from, hm, if_pos ha]
        rw [this]
        simpa [Conserves, approve_impl] using h1
      · have : step s (Call.transferFrom caller src dst v) = s := by
          simp [step, exec, transfer_from, hm, if_neg ha]
        rw [this]
        exact ⟨hc, hlt⟩
    | error e =>
      have hs : step s (Call.transferFrom caller src dst v) = s := by
        simp [step, exec, transfer_from, hm]
      rw [hs]
      exact ⟨hc, hlt⟩

theorem run_conserves (cs : List Call) : ∀ s : Mintable,
    s.total_supply < BalanceLimit → Conserves s → safeRun s cs = true →
    Conserves (run s cs) ∧ (run s cs).total_supply < BalanceLimit := by
  induction cs with
  | nil => intro s h1 h2 _; exact ⟨h2, h1⟩
  | cons c cs ih =>
    intro s h1 h2 hsafe
    simp only [safeRun, Bool.and_eq_true] at hsafe
    obtain ⟨hno, hrest⟩ := hsafe
    have hstep := step_conserves s c h1 h2 hno
    simpa [run] using ih (step s c) hstep.2 hstep.1 hrest

/-! ### Claim C1 -/

/-- A short exercise trace touching every write operation. -/
def demoCalls : List Call :=
  [Call.mint 0 1 1000, Call.transfer 1 2 400, Call.approve 2 1 50,
   Call.transferFrom 1 2 3 30, Call.burn 2 100]

/-- Claim C1 (amended): starting from the constructed state, after every
sequence of operations in which no `mint` pushes the total supply to
`2 ^ 128` or beyond, the stored total supply equals the sum of all entries
in the balances map (absent entries counting as 0); failed calls revert and
preserve the invariant as well.  Without the no-overflow proviso the claim
is refuted by `conservation_counterexample`. -/
theorem conservation_of_safe_runs (caller : AccountId) (nm : String) (cs : List Call)
    (hsafe : safeRun (Mintable.new caller nm) cs = true) :
    (run (Mintable.new caller nm) cs).total_supply =
      hmSum (run (Mintable.new caller nm) cs).balances := by
  have h0 : Conserves (Mintable.new caller nm) := by
    simp [Conserves, Mintable.new, hmInsert, hmSum]
  have h1 : (Mintable.new caller nm).total_supply < BalanceLimit := by
    simpa [Mintable.new] using balanceLimit_pos
  exact (run_conserves cs (Mintable.new caller nm) h1 h0 hsafe).1

theorem conservation_of_safe_runs_witness :
    safeRun (Mintable.new 0 "btc") demoCalls = true ∧
    (run (Mintable.new 0 "btc") demoCalls).total_supply =
      hmSum (run (Mintable.new 0 "btc") demoCalls).balances :=
  ⟨by decide, conservation_of_safe_runs 0 "btc" demoCalls (by decide)⟩

/-- Claim C1 counterexample: from the constructed state, the two mints
`mint(1, 2^128 - 2)` and `mint(2, 3)` by the minter both succeed, yet they
leave the stored total supply at 1 while the balances sum to `2^128 + 1`:
the conservation equation fails after a successful sequence of operations. -/
theorem conservation_counterexample :
    (runAllOk (Mintable.new 0 "t") [Call.mint 0 1 (BalanceLimit - 2), Call.mint 0 2 3]).map
      (fun t => decide (t.total_supply = hmSum t.balances)) = some false := by
  decide

/-! ### Frame lemmas for transfer and transfer_from -/

theorem transfer_impl_ok_fields (s s1 : Mintable) (src dst : AccountId) (v : Nat)
    (h : transfer_impl s src dst v = Except.ok s1) :
    s1.allowances = s.allowances ∧ s1.total_supply = s.total_supply ∧
    v ≤ balance_of_or_zero s src := by
  simp only [transfer_impl] at h
  by_cases hb : v ≤ balance_of_or_zero s src
  · rw [if_pos hb] at h
    simp only [Except.ok.injEq] at h
    subst h
    exact ⟨rfl, rfl, hb⟩
  · rw [if_neg hb] at h
    exact Except.noConfusion h

theorem transfer_impl_err_of_lt (s : Mintable) (src dst : AccountId) (v : Nat)
    (h : balance_of_or_zero s src < v) :
    transfer_impl s src dst v = Except.error Error.InsufficientBalance := by
  simp only [transfer_impl]
  rw [if_neg (Nat.not_le.mpr h)]

theorem transfer_impl_ok_of_le (s : Mintable) (src dst : AccountId) (v : Nat)
    (h : v ≤ balance_of_or_zero s src) :
    ∃ s1, transfer_impl s src dst v = Except.ok s1 := by
  simp only [transfer_impl]
  rw [if_pos h]
  exact ⟨_, rfl⟩

theorem transfer_from_err_allowance (s : Mintable) (caller src dst : AccountId) (v : Nat)
    (hbal : v ≤ balance_of_or_zero s src)
    (hallow : allowance_of_or_zero s src caller < v) :
    transfer_from s caller src dst v = Except.error Error.InsufficientAllowance := by
  obtain ⟨s1, hs1⟩ := transfer_impl_ok_of_le s src dst v hbal
  have hal : allowance_of_or_zero s1 src caller = allowance_of_or_zero s src caller := by
    obtain ⟨ha, -, -⟩ := transfer_impl_ok_fields s s1 src dst v hs1
    simp [allowance_of_or_zero, ha]
  simp only [transfer_from, hs1]
  rw [hal, if_neg (Nat.not_le.mpr hallow)]

theorem transfer_from_ok_spec (s : Mintable) (caller src dst : AccountId) (v : Nat)
    (s' : Mintable) (b : Bool)
    (h : transfer_from s caller src dst v = Except.ok (s', b)) :
    v ≤ allowance_of_or_zero s src caller ∧
    s'.allowances = hmInsert s.allowances (src, caller)
      (allowance_of_or_zero s src caller - v) := by
  cases hs1 : transfer_impl s src dst v with
  | error e => simp [transfer_from, hs1] at h
  | ok s1 =>
    obtain ⟨ha, -, -⟩ := transfer_impl_ok_fields s s1 src dst v hs1
    have hal : allowance_of_or_zero s1 src caller = allowance_of_or_zero s src caller := by
      simp [allowance_of_or_zero, ha]
    simp only [transfer_from, hs1] at h
    by_cases hle : v ≤ allowance_of_or_zero s1 src caller
    · rw [if_pos hle] at h
      simp only [Except.ok.injEq, Prod.mk.injEq] at h
      obtain ⟨hs', -⟩ := h
      subst hs'
      refine ⟨by rw [hal] at hle; exact hle, ?_⟩
      simp [approve_impl, ha, hal]
    · rw [if_neg hle] at h
      exact Except.noConfusion h

/-! ### Claim C2 -/

/-- A concrete ledger state used by witnesses: minter 0, balances 4 ↦ 50 and
7 ↦ 10, supply 60, allowance (owner 4, spender 9) ↦ 20. -/
def sampleLedger : Mintable :=
  { name := "t"
    minter := 0
    total_supply := 60
    balances := [(4, 50), (7, 10)]
    allowances := [((4, 9), 20)] }

/-- Claim C2: when the balance-moving first step of `transfer_from` goes
through but the allowance check fails, the whole call aborts with
`InsufficientAllowance` and no state mutation persists: the host keeps the
pre-call state, so the balances of `src` and `dst` are unchanged. -/
theorem transfer_from_insufficient_allowance_atomic (s : Mintable)
    (caller src dst : AccountId) (v : Nat)
    (hbal : v ≤ balance_of_or_zero s src)
    (hallow : allowance_of_or_zero s src caller < v) :
    transfer_from s caller src dst v = Except.error Error.InsufficientAllowance ∧
    step s (Call.transferFrom caller src dst v) = s ∧
    balance_of_or_zero (step s (Call.transferFrom caller src dst v)) src =
      balance_of_or_zero s src ∧
    balance_of_or_zero (step s (Call.transferFrom caller src dst v)) dst =
      balance_of_or_zero s dst := by
  have he := transfer_from_err_allowance s caller src dst v hbal hallow
  have hs : step s (Call.transferFrom caller src dst v) = s := by
    simp [step, exec, he]
  exact ⟨he, hs, by rw [hs], by rw [hs]⟩

theorem transfer_from_insufficient_allowance_atomic_witness :
    transfer_from sampleLedger 9 4 5 30 = Except.error Error.InsufficientAllowance ∧
    step sampleLedger (Call.transferFrom 9 4 5 30) = sampleLedger ∧
    balance_of_or_zero (step sampleLedger (Call.transferFrom 9 4 5 30)) 4 =
      balance_of_or_zero sampleLedger 4 ∧
    balance_of_or_zero (step sampleLedger (Call.transferFrom 9 4 5 30)) 5 =
      balance_of_or_zero sampleLedger 5 :=
  transfer_from_insufficient_allowance_atomic sampleLedger 9 4 5 30 (by decide) (by decide)

/-! ### Claim C3 -/

/-- Claim C3: a `mint` by any caller other than the minter fails with
`Unauthorized` and leaves the state (hence every balance and the total
supply) unchanged; a `mint` by the minter succeeds. -/
theorem mint_minter_exclusivity (s : Mintable) (caller dst : AccountId) (v : Nat) :
    (caller ≠ s.minter →
      mint s caller dst v = Except.error Error.Unauthorized ∧
      step s (Call.mint caller dst v) = s) ∧
    (caller = s.minter → ∃ s', mint s caller dst v = Except.ok (s', true)) := by
  constructor
  · intro hne
    have hmv : mint s caller dst v = Except.error Error.Unauthorized := by
      simp [mint, mint_impl, hne, Except.map]
    exact ⟨hmv, by simp [step, exec, hmv]⟩
  · intro heq
    refine ⟨{ s with
        balances := hmInsert s.balances dst (wadd (balance_of_or_zero s dst) v),
        total_supply := wadd s.total_supply v }, ?_⟩
    simp [mint, mint_impl, if_pos heq, Except.map]

theorem mint_minter_exclusivity_witness :
    (mint sampleLedger 3 1 7 = Except.error Error.Unauthorized ∧
      step sampleLedger (Call.mint 3 1 7) = sampleLedger) ∧
    ∃ s', mint sampleLedger 0 1 7 = Except.ok (s', true) :=
  ⟨(mint_minter_exclusivity sampleLedger 3 1 7).1 (by decide),
   (mint_minter_exclusivity sampleLedger 0 1 7).2 (by decide)⟩

/-! ### Claim C5 -/

/-- Claim C5: `burn` and `transfer` with a value above the caller's balance
abort with `InsufficientBalance` and leave the state unchanged; with a value
at most the caller's balance they succeed. -/
theorem insufficient_balance_aborts (s : Mintable) (caller dst : AccountId) (v : Nat) :
    (balance_of_or_zero s caller < v →
      burn s caller v = Except.error Error.InsufficientBalance ∧
      step s (Call.burn caller v) = s ∧
      transfer s caller dst v = Except.error Error.InsufficientBalance ∧
      step s (Call.transfer caller dst v) = s) ∧
    (v ≤ balance_of_or_zero s caller →
      (∃ s', burn s caller v = Except.ok (s', true)) ∧
      (∃ s', transfer s caller dst v = Except.ok (s', true))) := by
  constructor
  · intro hlt
    have hbv : burn s caller v = Except.error Error.InsufficientBalance := by
      simp [burn, burn_impl, Nat.not_le.mpr hlt, Except.map]
    have htv : transfer s caller dst v = Except.error Error.InsufficientBalance := by
      simp [transfer, transfer_impl, Nat.not_le.mpr hlt, Except.map]
    exact ⟨hbv, by simp [step, exec, hbv], htv, by simp [step, exec, htv]⟩
  · intro hle
    constructor
    · refine ⟨{ s with
          balances := hmInsert s.balances caller (balance_of_or_zero s caller - v),
          total_supply := wsub s.total_supply v }, ?_⟩
      simp [burn, burn_impl, if_pos hle, Except.map]
    · refine ⟨{ s with
          balances := hmInsert (hmInsert s.balances caller (balance_of_or_zero s caller - v)) dst
            (wadd (hmGet (hmInsert s.balances caller (balance_of_or_zero s caller - v)) dst) v) },
        ?_⟩
      have hle2 : v ≤ hmGet s.balances caller := hle
      simp [transfer, transfer_impl, Except.map, balance_of_or_zero, hle2]

theorem insufficient_balance_aborts_witness :
    (burn sampleLedger 4 100 = Except.error Error.InsufficientBalance ∧
      step sampleLedger (Call.burn 4 100) = sampleLedger ∧
      transfer sampleLedger 4 5 100 = Except.error Error.InsufficientBalance ∧
      step sampleLedger (Call.transfer 4 5 100) = sampleLedger) ∧
    ((∃ s', burn sampleLedger 4 20 = Except.ok (s', true)) ∧
      (∃ s', transfer sampleLedger 4 5 20 = Except.ok (s', true))) :=
  ⟨(insufficient_balance_aborts sampleLedger 4 5 100).1 (by decide),
   (insufficient_balance_aborts sampleLedger 4 5 20).2 (by decide)⟩

/-! ### Claim C6 -/

/-- Claim C6: after a successful `transfer_from(src, dst, v)` by spender
`caller`, the stored allowance of (src, caller) is exactly `v` less than
before the call, and the allowance of every other (owner, spender) pair is
unchanged. -/
theorem transfer_from_allowance_decrement (s : Mintable) (caller src dst : AccountId)
    (v : Nat) (s' : Mintable) (b : Bool)
    (h : transfer_from s caller src dst v = Except.ok (s', b)) :
    v ≤ allowance_of_or_zero s src caller ∧
    allowance_of_or_zero s src caller = allowance_of_or_zero s' src caller + v ∧
    ∀ o p : AccountId, (o, p) ≠ (src, caller) →
      allowance_of_or_zero s' o p = allowance_of_or_zero s o p := by
  obtain ⟨hle, hall⟩ := transfer_from_ok_spec s caller src dst v s' b h
  refine ⟨hle, ?_, ?_⟩
  · simp only [allowance_of_or_zero, hall, hmGet_insert_self]
    simp only [allowance_of_or_zero] at hle
    omega
  · intro o p hne
    simp only [allowance_of_or_zero, hall]
    rw [hmGet_insert_ne _ _ _ _ hne]

theorem transfer_from_allowance_decrement_witness :
    15 ≤ allowance_of_or_zero sampleLedger 4 9 ∧
    allowance_of_or_zero sampleLedger 4 9 =
      allowance_of_or_zero
        ⟨"t", 0, 60, [(4, 35), (7, 10), (5, 15)], [((4, 9), 5)]⟩ 4 9 + 15 ∧
    ∀ o p : AccountId, (o, p) ≠ (4, 9) →
      allowance_of_or_zero
        ⟨"t", 0, 60, [(4, 35), (7, 10), (5, 15)], [((4, 9), 5)]⟩ o p =
        allowance_of_or_zero sampleLedger o p :=
  transfer_from_allowance_decrement sampleLedger 9 4 5 15
    ⟨"t", 0, 60, [(4, 35), (7, 10), (5, 15)], [((4, 9), 5)]⟩ true rfl

/-! ### Claim C7 -/

/-- Claim C7: a self-transfer (`src = dst`) with sufficient balance succeeds
and is a net no-op: every account's balance and the total supply read exactly
as before the call.  The hypothesis `balance_of_or_zero s c < BalanceLimit`
records that a stored u128 balance is always below `2 ^ 128`. -/
theorem self_transfer_noop (s : Mintable) (c : AccountId) (v : Nat)
    (hb : v ≤ balance_of_or_zero s c) (hw : balance_of_or_zero s c < BalanceLimit) :
    ∃ s', transfer s c c v = Except.ok (s', true) ∧
      (∀ a : AccountId, balance_of_or_zero s' a = balance_of_or_zero s a) ∧
      s'.total_supply = s.total_supply := by
  have hle2 : v ≤ hmGet s.balances c := hb
  refine ⟨{ s with
      balances := hmInsert (hmInsert s.balances c (balance_of_or_zero s c - v)) c
        (wadd (hmGet (hmInsert s.balances c (balance_of_or_zero s c - v)) c) v) }, ?_, ?_, rfl⟩
  · simp [transfer, transfer_impl, Except.map, balance_of_or_zero, hle2]
  · intro a
    by_cases hac : a = c
    · subst hac
      simp only [balance_of_or_zero, hmGet_insert_self]
      simp only [balance_of_or_zero] at hb hw
      rw [wadd_eq_of_lt (by omega)]
      omega
    · simp only [balance_of_or_zero]
      rw [hmGet_insert_ne _ _ _ _ hac, hmGet_insert_ne _ _ _ _ hac]

theorem self_transfer_noop_witness :
    ∃ s', transfer sampleLedger 4 4 30 = Except.ok (s', true) ∧
      (∀ a : AccountId, balance_of_or_zero s' a = balance_of_or_zero sampleLedger a) ∧
      s'.total_supply = sampleLedger.total_supply :=
  self_transfer_noop sampleLedger 4 30 (by decide) (by decide)

/-! ### Claim C8 -/

/-- Claim C8: `approve` unconditionally overwrites the (owner, spender)
allowance, so two sequential approvals leave the second value, independent
of the first and of any prior allowance. -/
theorem approve_overwrite (s : Mintable) (owner spender : AccountId) (v1 v2 : Nat) :
    allowance_of_or_zero
      (step (step s (Call.approve owner spender v1)) (Call.approve owner spender v2))
      owner spender = v2 := by
  simp [step, exec, approve, approve_impl, allowance_of_or_zero, hmGet_insert_self]

/-! ### Claim C9 -/

/-- Claim C9: every write message (`mint`, `burn`, `transfer`, `approve`,
`transfer_from`), whenever it returns at all, returns `true`; every failure
surfaces as a trap, never as a `false` result. -/
theorem write_messages_return_true (s : Mintable) (c : Call) (s' : Mintable) (b : Bool)
    (h : exec s c = Except.ok (s', b)) : b = true := by
  cases c with
  | mint caller dst v =>
    cases hm : mint_impl s caller dst v with
    | error e => simp [exec, mint, hm, Except.map] at h
    | ok s1 =>
      simp only [exec, mint, hm, Except.map, Except.ok.injEq, Prod.mk.injEq] at h
      exact h.2.symm
  | burn caller v =>
    cases hm : burn_impl s caller v with
    | error e => simp [exec, burn, hm, Except.map] at h
    | ok s1 =>
      simp only [exec, burn, hm, Except.map, Except.ok.injEq, Prod.mk.injEq] at h
      exact h.2.symm
  | transfer caller dst v =>
    cases hm : transfer_impl s caller dst v with
    | error e => simp [exec, transfer, hm, Except.map] at h
    | ok s1 =>
      simp only [exec, transfer, hm, Except.map, Except.ok.injEq, Prod.mk.injEq] at h
      exact h.2.symm
  | approve caller spender v =>
    simp only [exec, approve, Except.ok.injEq, Prod.mk.injEq] at h
    exact h.2.symm
  | transferFrom caller src dst v =>
    cases hm : transfer_impl s src dst v with
    | error e => simp [exec, transfer_from, hm] at h
    | ok s1 =>
      simp only [exec, transfer_from, hm] at h
      by_cases ha : v ≤ allowance_of_or_zero s1 src caller
      · rw [if_pos ha] at h
        simp only [Except.ok.injEq, Prod.mk.injEq] at h
        exact h.2.symm
      · rw [if_neg ha] at h
        exact Except.noConfusion h

theorem write_messages_return_true_witness : (true : Bool) = true :=
  write_messages_return_true sampleLedger (Call.approve 1 2 3)
    (approve_impl sampleLedger 1 2 3) true rfl

/-! ### Claim C10 -/

/-- A ledger where owner 4 has approved themselves 20. -/
def selfApprovedLedger : Mintable :=
  { name := "t"
    minter := 0
    total_supply := 50
    balances := [(4, 50)]
    allowances := [((4, 4), 20)] }

/-- Claim C10: an owner moving their own funds through `transfer_from`
(caller = spender = src) gets no exemption: with enough balance but an
allowance (src, src) below `v` the call aborts with `InsufficientAllowance`,
and on success the self-allowance is decremented by exactly `v`. -/
theorem transfer_from_owner_not_exempt (s : Mintable) (c dst : AccountId) (v : Nat)
    (hv : 0 < v) :
    (v ≤ balance_of_or_zero s c → allowance_of_or_zero s c c < v →
      transfer_from s c c dst v = Except.error Error.InsufficientAllowance) ∧
    (∀ s' b, transfer_from s c c dst v = Except.ok (s', b) →
      v ≤ allowance_of_or_zero s c c ∧
      allowance_of_or_zero s c c = allowance_of_or_zero s' c c + v) := by
  constructor
  · intro hbal hallow
    exact transfer_from_err_allowance s c c dst v hbal hallow
  · intro s' b h
    obtain ⟨hle, hall⟩ := transfer_from_ok_spec s c c dst v s' b h
    refine ⟨hle, ?_⟩
    simp only [allowance_of_or_zero, hall, hmGet_insert_self]
    simp only [allowance_of_or_zero] at hle
    omega

theorem transfer_from_owner_not_exempt_witness :
    transfer_from sampleLedger 4 4 5 10 = Except.error Error.InsufficientAllowance ∧
    (10 ≤ allowance_of_or_zero selfApprovedLedger 4 4 ∧
      allowance_of_or_zero selfApprovedLedger 4 4 =
        allowance_of_or_zero ⟨"t", 0, 50, [(4, 40), (5, 10)], [((4, 4), 10)]⟩ 4 4 + 10) :=
  ⟨(transfer_from_owner_not_exempt sampleLedger 4 5 10 (by decide)).1 (by decide) (by decide),
   (transfer_from_owner_not_exempt selfApprovedLedger 4 5 10 (by decide)).2
     ⟨"t", 0, 50, [(4, 40), (5, 10)], [((4, 4), 10)]⟩ true rfl⟩

/-! ### Claim C4 -/

/-- Claim C4 fails on the code: the additions in `_mint` are plain u128 `+`,
not checked ones, and the contract has no `ArithmeticOverflow` error at all.
From the constructed state, minting `2^128 - 1` and then `2` to the same
account both succeed (returning through the normal path), and the second
mint silently wraps: the stored total supply and the recipient's balance
both read 1 afterwards instead of the call aborting. -/
theorem mint_overflow_wraps_silently :
    (runAllOk (Mintable.new 0 "t") [Call.mint 0 0 (BalanceLimit - 1), Call.mint 0 0 2]).map
      (fun t => (t.total_supply, balance_of_or_zero t 0)) = some (1, 1) := by
  decide
